import Mathlib

/-!
Verification of the spreadsheet-to-JSON vote-normalization scripts
(`src/scripts/build_data_chile_partidos_2025.py`,
 `src/scripts/build_data_chile_presidencial_2025.py`,
 `src/scripts/build_data_peru_partidos_2026.py`,
 `src/scripts/build_data_peru_pres_2026.py`).

The four scripts are near-duplicates of a single pipeline.  We embed the
pipeline once, parameterized by a variant configuration recording the
differences between the four files (row cap, cell-interpretation function,
post-mapping replacement triple, entity-header decomposition, output
category label).

Modelling conventions:
  - A spreadsheet cell is `Option String` (`none` models Python `None` and
    the pandas NA marker; all cells are read with `dtype=str`, so a present
    cell is a string).
  - A table is a list of rows, each a list of cells; access past the end of
    a row yields `none`, matching the NA padding of a rectangular frame.
  - Python floats are modelled as exact rationals; `pyFloat?` models the
    `float(...)` conversion on plain decimal literals (optional sign,
    digits, at most one period).  Exponent, infinity, nan and underscore
    forms accepted by Python are outside the modelled fragment; none of the
    spec's vocabulary or example strings use them.
  - `pyStrip` models Python `str.strip()` (ASCII whitespace) and `pyLower`
    models `str.lower()` (ASCII letters); both agree with Python on the
    vocabulary and the examples at issue.
  - A Python value that may be either a float or a string (the vote slot of
    the chile_presidencial variant) is modelled by `PyVal`.
  - Python dicts are modelled as association lists with insertion-order
    semantics (`dictInsert` replaces in place, appends when the key is new).
  - The fatal `raise ValueError` paths are modelled with `Except.error`;
    a completed run that writes its single output document is `Except.ok`.
-/

/-- Whitespace stripped by Python `str.strip()` (ASCII range). -/
def isPyWs (c : Char) : Bool :=
  c = ' ' || c = '\t' || c = '\n' || c = '\r' || c.toNat = 11 || c.toNat = 12

/-- Strip leading and trailing whitespace from a character list. -/
def trimChars (cs : List Char) : List Char :=
  ((cs.dropWhile isPyWs).reverse.dropWhile isPyWs).reverse

/-- Model of Python `str.strip()`. -/
def pyStrip (s : String) : String :=
  String.mk (trimChars s.data)

/-- Lower-case one character (ASCII letters, as in the vocabulary). -/
def lowerChar (c : Char) : Char :=
  if 'A' ≤ c ∧ c ≤ 'Z' then Char.ofNat (c.toNat + 32) else c

/-- Model of Python `str.lower()` on the ASCII vocabulary. -/
def pyLower (s : String) : String :=
  String.mk (s.data.map lowerChar)

/-- Model of the Python replacement of every comma by a period
(`vt.replace` with a one-character pattern). -/
def pyCommaToDot (s : String) : String :=
  String.mk (s.data.map (fun c => if c = ',' then '.' else c))

/-- Model of `clean_text` (identical in all four scripts): `None`/NA becomes
absent, otherwise strip surrounding whitespace and turn an empty result into
absent. -/
def clean_text (s : Option String) : Option String :=
  match s with
  | none => none
  | some t =>
    let u := pyStrip t
    if u = "" then none else some u

/-- Value of a list of decimal digit characters, most significant first. -/
def digitsVal (ds : List Char) : Nat :=
  ds.foldl (fun n c => 10 * n + (c.toNat - 48)) 0

/-- Model of Python `float(s)` on plain decimal literals: optional sign,
then digits with at most one period and at least one digit; the result is
returned as an exact rational.  Returns `none` where `float` raises. -/
def pyFloat? (s : String) : Option Rat :=
  let cs := s.data
  let signed : Bool × List Char :=
    match cs with
    | '-' :: r => (true, r)
    | '+' :: r => (false, r)
    | r => (false, r)
  let neg := signed.1
  let body := signed.2
  let ip := body.takeWhile (fun c => !(c = '.'))
  let rest := body.dropWhile (fun c => !(c = '.'))
  let mk : Rat → Option Rat := fun q => some (if neg then -q else q)
  match rest with
  | [] =>
    if !ip.isEmpty && ip.all Char.isDigit then mk (mkRat (digitsVal ip) 1) else none
  | _ :: frac =>
    if (!ip.isEmpty || !frac.isEmpty) && ip.all Char.isDigit && frac.all Char.isDigit then
      mk (mkRat (digitsVal ip * 10 ^ frac.length + digitsVal frac) (10 ^ frac.length))
    else none

/-- Boolean test: the first list is an initial segment of the second. -/
def leadsList : List Char → List Char → Bool
  | [], _ => true
  | _ :: _, [] => false
  | p :: ps, c :: cs => p = c && leadsList ps cs

/-- Boolean substring test on character lists. -/
def containsSub (pat : List Char) : List Char → Bool
  | [] => leadsList pat []
  | c :: rest => leadsList pat (c :: rest) || containsSub pat rest

/-- Model of the Python substring test `pat in s` on strings. -/
def containsStr (s pat : String) : Bool :=
  containsSub pat.data s.data

/-- Model of `map_vote_text_to_value` as it appears in
`build_data_chile_partidos_2025.py` and `build_data_peru_partidos_2026.py`:
numeric parsing only (comma tolerated as decimal separator), every
non-numeric text maps to absent. -/
def map_vote_text_to_value_numeric (vote_text : Option String) : Option Rat :=
  match vote_text with
  | none => none
  | some t =>
    let vt := pyStrip t
    if vt = "" then none
    else pyFloat? (pyCommaToDot vt)

/-- Model of `map_vote_text_to_value` as it appears in
`build_data_peru_pres_2026.py`: numeric parsing first, then the
case-insensitive Spanish vocabulary, checked in order with first match
winning. -/
def map_vote_text_to_value_full (vote_text : Option String) : Option Rat :=
  match vote_text with
  | none => none
  | some t =>
    let vt := pyStrip t
    if vt = "" then none
    else
      match pyFloat? (pyCommaToDot vt) with
      | some q => some q
      | none =>
        let low := pyLower vt
        if containsStr low "a favor" || low = "favor" then some 1
        else if containsStr low "en contra" || low = "contra" then some 0
        else if containsStr low "neutral" then some (mkRat 1 2)
        else if low = "sí" || low = "si" || low = "yes" then some 1
        else if low = "no" then some 0
        else none

/-- A Python scalar that is either a float (modelled as a rational) or a
string; the vote slot of a record holds one or the other depending on the
variant. -/
inductive PyVal : Type where
  | num : Rat → PyVal
  | str : String → PyVal
deriving DecidableEq, Repr

/-- Module constant `MISSING_VOTE_DEFAULT = 0.5` (all four scripts). -/
def MISSING_VOTE_DEFAULT : Rat := mkRat 1 2

/-- Module constant `MISSING_COMMENT_DEFAULT` (all four scripts). -/
def MISSING_COMMENT_DEFAULT : String :=
  "No se encontró información pública sobre su posición."

/-- Local variable `missing_comment_default` inside
`generate_from_new_structure` of the two Peru scripts: an abbreviated
placeholder, distinct from the module constant. -/
def missing_comment_default_peru : String := "No se encontró..."

/-- Split a character list on every occurrence of the three-asterisk
delimiter, scanning left to right. -/
def splitStars : List Char → List (List Char)
  | [] => [[]]
  | '*' :: '*' :: '*' :: rest => [] :: splitStars rest
  | c :: rest =>
    match splitStars rest with
    | [] => [[c]]
    | g :: gs => (c :: g) :: gs

/-- Rejoin groups with the three-asterisk delimiter. -/
def joinStars : List (List Char) → List Char
  | [] => []
  | [g] => g
  | g :: gs => g ++ '*' :: '*' :: '*' :: joinStars gs

/-- Model of the Python split of `raw` on the literal triple-asterisk
delimiter with maxsplit 2: at most two splits, so at most three segments.
A fourth delimiter and beyond stays inside the third segment. -/
def pySplit2 (s : String) : List String :=
  match splitStars s.data with
  | [] => [s]
  | [a] => [String.mk a]
  | [a, b] => [String.mk a, String.mk b]
  | a :: b :: rest => [String.mk a, String.mk b, String.mk (joinStars rest)]

/-- The missing-cell default triple returned by `parse_cell_combined` when
the cleaned cell is absent (module constants, all four scripts). -/
def defaultTriple : Option PyVal × Option String × Option String :=
  (some (PyVal.num MISSING_VOTE_DEFAULT), some MISSING_COMMENT_DEFAULT, none)

/-- Model of `parse_cell_combined` from
`build_data_chile_partidos_2025.py` and `build_data_peru_partidos_2026.py`:
split on the delimiter, clean each segment, map the first segment with the
numeric-only vote mapping. -/
def parse_cell_combined_numeric (cell_value : Option String) :
    Option PyVal × Option String × Option String :=
  match clean_text cell_value with
  | none => defaultTriple
  | some raw =>
    let parts := pySplit2 raw
    ((map_vote_text_to_value_numeric (clean_text (parts.get? 0))).map PyVal.num,
     clean_text (parts.get? 1),
     clean_text (parts.get? 2))

/-- Model of `parse_cell_combined` from `build_data_peru_pres_2026.py`:
split on the delimiter, clean each segment, map the first segment with the
full numeric-then-vocabulary vote mapping. -/
def parse_cell_combined_full (cell_value : Option String) :
    Option PyVal × Option String × Option String :=
  match clean_text cell_value with
  | none => defaultTriple
  | some raw =>
    let parts := pySplit2 raw
    ((map_vote_text_to_value_full (clean_text (parts.get? 0))).map PyVal.num,
     clean_text (parts.get? 1),
     clean_text (parts.get? 2))

/-- Model of `parse_cell_combined` from
`build_data_chile_presidencial_2025.py`: split on the delimiter and clean
each segment, but apply no vote mapping at all — the cleaned first segment
is returned verbatim (as a string) in the vote slot. -/
def parse_cell_combined_text (cell_value : Option String) :
    Option PyVal × Option String × Option String :=
  match clean_text cell_value with
  | none => defaultTriple
  | some raw =>
    let parts := pySplit2 raw
    ((clean_text (parts.get? 0)).map PyVal.str,
     clean_text (parts.get? 1),
     clean_text (parts.get? 2))

/-- Split a character list around its first opening parenthesis: returns
the characters before it and the characters after it, or `none` when no
opening parenthesis occurs. -/
def findOpenParen : List Char → Option (List Char × List Char)
  | [] => none
  | c :: rest =>
    if c = '(' then some ([], rest)
    else
      match findOpenParen rest with
      | none => none
      | some (pre, post) => some (c :: pre, post)

/-- Model of `parse_candidate_header` (identical in
`build_data_peru_pres_2026.py` and `build_data_chile_presidencial_2025.py`).
The Python code strips the header and matches the anchored lazy pattern
caret (.*?) whitespace ( (.*?) ) whitespace dollar.  On a stripped string
that pattern matches exactly when the string ends with a closing parenthesis
and contains an opening parenthesis before it; the first group then ends at
the first opening parenthesis and the second group runs up to the final
closing parenthesis.  Both groups are stripped afterwards. -/
def parse_candidate_header (header_str : Option String) :
    Option String × Option String :=
  match header_str with
  | none => (none, none)
  | some s =>
    let t := pyStrip s
    let cs := t.data
    if cs.getLast? = some ')' then
      match findOpenParen cs.dropLast with
      | some (pre, post) => (some (pyStrip (String.mk pre)), some (pyStrip (String.mk post)))
      | none => (some t, none)
    else (some t, none)

/-- The materialized output unit: one vote record per (question, entity)
pair, mirroring the dict literal assigned into `votes[question_identifier]`. -/
structure VoteRecord where
  tema : Option String
  question : String
  vote : Option PyVal
  comment : Option String
  source : Option String
deriving DecidableEq, Repr

/-- One entity of the output document: display name, optional party field
(`none` when the variant omits the field entirely, `some p` when the field
is present with value `p`), and the votes dict in insertion order. -/
structure EntityOut where
  name : Option String
  party : Option (Option String)
  votes : List (String × VoteRecord)
deriving DecidableEq, Repr

/-- Python dict assignment on an association list: replace the value in
place when the key is present, append at the end when it is new. -/
def dictInsert {α β : Type} [DecidableEq α] (k : α) (v : β) :
    List (α × β) → List (α × β)
  | [] => [(k, v)]
  | p :: rest => if p.1 = k then (k, v) :: rest else p :: dictInsert k v rest

/-- Dict lookup on an association list. -/
def dictGet? {α β : Type} [DecidableEq α] (d : List (α × β)) (k : α) : Option β :=
  (d.find? (fun p => p.1 = k)).map Prod.snd

/-- Configuration record capturing everything that differs between the four
scripts' `generate_from_new_structure` (besides sheet name and output path,
which are I/O concerns outside the model). -/
structure VariantConfig where
  rowCap : Nat
  parseCell : Option String → Option PyVal × Option String × Option String
  replacementTriple : Option PyVal × Option String × Option String
  headerToEntity : Option String → Option String × Option (Option String)
  category : String

/-- Cell access `data_frame.at[row_index, label] if label in columns else
None`: locate the column label in the promoted header and read that slot of
the row; a row shorter than the header reads as NA. -/
def frameCell (headers row : List (Option String)) (label : Option String) :
    Option String :=
  match headers.findIdx? (fun h => h == label) with
  | none => none
  | some j => (row.get? j).join

/-- The cleaned topic and statement of a data row; `none` when the
statement cleans to absent (the row is skipped). -/
def rowKey (headers row : List (Option String)) :
    Option (Option String × String) :=
  let topic := clean_text (frameCell headers row (some "Tema"))
  match clean_text (frameCell headers row (some "Statement")) with
  | none => none
  | some st => some (topic, st)

/-- The readable question identifier: `"{topic}: {statement}"` when the
topic is present, else the statement alone. -/
def qidOf (tp : Option String) (st : String) : String :=
  match tp with
  | some t => t ++ ": " ++ st
  | none => st

/-- The per-cell step of the row loop: parse the cell, then enforce the
variant's replacement defaults when all three components are absent. -/
def finalizeCell (cfg : VariantConfig) (cell_value : Option String) :
    Option PyVal × Option String × Option String :=
  let t := cfg.parseCell cell_value
  if t.1 = none ∧ t.2.1 = none ∧ t.2.2 = none then cfg.replacementTriple else t

/-- The VoteRecord stored for entity column `l` on a surviving row. -/
def mkRecord (cfg : VariantConfig) (headers row : List (Option String))
    (l : Option String) (tp : Option String) (st : String) : VoteRecord :=
  let t := finalizeCell cfg (frameCell headers row l)
  { tema := tp, question := st, vote := t.1, comment := t.2.1, source := t.2.2 }

/-- Initial entity entry created before the row loop. -/
def mkEntity (cfg : VariantConfig) (label : Option String) : EntityOut :=
  { name := (cfg.headerToEntity label).1
    party := (cfg.headerToEntity label).2
    votes := [] }

/-- Store a record under `q` in the votes dict of the entity keyed by `l`. -/
def updateVotes (l : Option String) (q : String) (rcd : VoteRecord)
    (es : List (Option String × EntityOut)) : List (Option String × EntityOut) :=
  es.map (fun p => if p.1 = l then (l, { p.2 with votes := dictInsert q rcd p.2.votes }) else p)

/-- One iteration of the outer row loop: skip the row when its statement
cleans to absent, otherwise store one record per entity column. -/
def rowStep (cfg : VariantConfig) (headers labels : List (Option String))
    (es : List (Option String × EntityOut)) (row : List (Option String)) :
    List (Option String × EntityOut) :=
  match rowKey headers row with
  | none => es
  | some (tp, st) =>
    labels.foldl
      (fun es' l => updateVotes l (qidOf tp st) (mkRecord cfg headers row l tp st) es') es

/-- Per-entity view of the row loop, used in proofs: the votes dict of one
entity after processing a list of rows. -/
def voteStep (cfg : VariantConfig) (headers : List (Option String))
    (l : Option String) (v : List (String × VoteRecord))
    (row : List (Option String)) : List (String × VoteRecord) :=
  match rowKey headers row with
  | none => v
  | some (tp, st) => dictInsert (qidOf tp st) (mkRecord cfg headers row l tp st) v

/-- The entity columns: every promoted header label other than the two
metadata labels, in original order. -/
def entityLabelsOf (headers : List (Option String)) : List (Option String) :=
  headers.filter (fun h => !(h == some "Tema") && !(h == some "Statement"))

/-- Model of `generate_from_new_structure`: truncate to the row cap, fail
when no rows remain, promote the first row to headers, fail when a
mandatory metadata column is missing, then build one entity entry per
entity column and run the row loop.  `Except.ok` carries the category label
and the entity dict of the single output document. -/
def generate (cfg : VariantConfig) (table : List (List (Option String))) :
    Except String (String × List (Option String × EntityOut)) :=
  match table.take cfg.rowCap with
  | [] => Except.error "Input sheet appears empty or is missing the header row."
  | headers :: dataRows =>
    if some "Statement" ∈ headers ∧ some "Tema" ∈ headers then
      let labels := entityLabelsOf headers
      let entities0 := labels.foldl (fun es l => dictInsert l (mkEntity cfg l) es) []
      Except.ok (cfg.category, dataRows.foldl (rowStep cfg headers labels) entities0)
    else Except.error "Expected Tema and Statement columns in the sheet."

/-- Variant configuration of `build_data_chile_partidos_2025.py`: cap 15,
numeric-only cell parsing, module-constant replacement defaults, entity
header used as the name with no party field, category `parties`. -/
def chile_partidos_2025 : VariantConfig :=
  { rowCap := 15
    parseCell := parse_cell_combined_numeric
    replacementTriple := defaultTriple
    headerToEntity := fun l => (l, none)
    category := "parties" }

/-- Variant configuration of `build_data_peru_partidos_2026.py`: cap
`number_of_topics + 1 = 9`, numeric-only cell parsing, local replacement
defaults with the abbreviated placeholder comment, entity header used as
the name with no party field, category `parties`. -/
def peru_partidos_2026 : VariantConfig :=
  { rowCap := 9
    parseCell := parse_cell_combined_numeric
    replacementTriple :=
      (some (PyVal.num MISSING_VOTE_DEFAULT), some missing_comment_default_peru, none)
    headerToEntity := fun l => (l, none)
    category := "parties" }

/-- Variant configuration of `build_data_peru_pres_2026.py`: the code takes
`head(number_of_topics + 1)` and then `head(12)`, a net cap of 9; full
numeric-then-vocabulary cell parsing, local replacement defaults with the
abbreviated placeholder comment, candidate header decomposition, category
`candidates`. -/
def peru_pres_2026 : VariantConfig :=
  { rowCap := 9
    parseCell := parse_cell_combined_full
    replacementTriple :=
      (some (PyVal.num MISSING_VOTE_DEFAULT), some missing_comment_default_peru, none)
    headerToEntity := fun l =>
      let p := parse_candidate_header l
      (p.1, some p.2)
    category := "candidates" }

/-- Variant configuration of `build_data_chile_presidencial_2025.py`: cap
21, no vote mapping in cell parsing (the cleaned position text passes
through verbatim), module-constant replacement defaults, candidate header
decomposition, category `candidates`. -/
def chile_presidencial_2025 : VariantConfig :=
  { rowCap := 21
    parseCell := parse_cell_combined_text
    replacementTriple := defaultTriple
    headerToEntity := fun l =>
      let p := parse_candidate_header l
      (p.1, some p.2)
    category := "candidates" }

/-- The run of `build_data_chile_partidos_2025.py` on a table. -/
def generate_chile_partidos (table : List (List (Option String))) :=
  generate chile_partidos_2025 table

/-- The run of `build_data_peru_partidos_2026.py` on a table. -/
def generate_peru_partidos (table : List (List (Option String))) :=
  generate peru_partidos_2026 table

/-- The run of `build_data_peru_pres_2026.py` on a table. -/
def generate_peru_pres (table : List (List (Option String))) :=
  generate peru_pres_2026 table

/-- The run of `build_data_chile_presidencial_2025.py` on a table. -/
def generate_chile_presidencial (table : List (List (Option String))) :=
  generate chile_presidencial_2025 table

instance {ε α : Type} [DecidableEq ε] [DecidableEq α] : DecidableEq (Except ε α) := fun x y =>
  match x, y with
  | .error a, .error b =>
    if h : a = b then isTrue (by rw [h]) else isFalse (by intro hc; cases hc; exact h rfl)
  | .error _, .ok _ => isFalse (by intro hc; cases hc)
  | .ok _, .error _ => isFalse (by intro hc; cases hc)
  | .ok a, .ok b =>
    if h : a = b then isTrue (by rw [h]) else isFalse (by intro hc; cases hc; exact h rfl)

theorem mkRat_one_two_eq : mkRat 1 2 = (1/2 : Rat) := by
  norm_num [Rat.mkRat_eq_div]

theorem mkRat_seven_ten_eq : mkRat 7 10 = (7/10 : Rat) := by
  norm_num [Rat.mkRat_eq_div]

theorem mkRat_five_two_eq : mkRat 5 2 = (5/2 : Rat) := by
  norm_num [Rat.mkRat_eq_div]

/-- C1: for every raw cell value that cleans to absent, every variant's
`parse_cell_combined` returns exactly the missing-cell default triple
(vote 0.5, the fixed Spanish placeholder comment, absent source), directly
and without vote-mapping. -/
theorem claim_C1_missing_cell_default (cell_value : Option String)
    (h : clean_text cell_value = none) :
    parse_cell_combined_numeric cell_value = defaultTriple ∧
    parse_cell_combined_full cell_value = defaultTriple ∧
    parse_cell_combined_text cell_value = defaultTriple ∧
    defaultTriple =
      (some (PyVal.num (1/2)),
       some "No se encontró información pública sobre su posición.", none) := by
  unfold parse_cell_combined_numeric parse_cell_combined_full parse_cell_combined_text
  rw [h]
  refine ⟨rfl, rfl, rfl, ?_⟩
  rw [defaultTriple, MISSING_VOTE_DEFAULT, MISSING_COMMENT_DEFAULT, mkRat_one_two_eq]

/-- Witness for C1 at the whitespace-only cell. -/
theorem claim_C1_missing_cell_default_witness :
    clean_text (some "   ") = none ∧
    parse_cell_combined_numeric (some "   ") = defaultTriple :=
  ⟨by decide, (claim_C1_missing_cell_default (some "   ") (by decide)).1⟩

/-- C4: the vocabulary-enabled vote mapper parses numerically first (comma
tolerated, result returned unmodified with no clamping to the unit
interval), then falls back to the case-insensitive vocabulary in its fixed
order with first match winning, and returns absent on no match; the spec's
round-trip instances evaluate as listed. -/
theorem claim_C4_vote_mapper :
    (∀ (s : String) (q : Rat),
        pyFloat? (pyCommaToDot (pyStrip s)) = some q →
        map_vote_text_to_value_full (some s) = some q) ∧
    map_vote_text_to_value_full (some "A favor") = some 1 ∧
    map_vote_text_to_value_full (some "a favor de algo") = some 1 ∧
    map_vote_text_to_value_full (some "1") = some 1 ∧
    map_vote_text_to_value_full (some "1,0") = some 1 ∧
    map_vote_text_to_value_full (some "En contra") = some 0 ∧
    map_vote_text_to_value_full (some "neutral") = some (1/2) ∧
    map_vote_text_to_value_full (some "tal vez") = none ∧
    map_vote_text_to_value_full (some "2,5") = some (5/2) ∧
    map_vote_text_to_value_full (some "en contra de estar a favor") = some 1 := by
  constructor
  · intro s q h
    have hne : ¬ pyStrip s = "" := by
      intro he
      rw [he] at h
      exact Option.noConfusion ((by decide : pyFloat? (pyCommaToDot "") = none) ▸ h)
    simp only [map_vote_text_to_value_full]
    rw [if_neg hne, h]
  · rw [← mkRat_one_two_eq, ← mkRat_five_two_eq]
    refine ⟨by decide, by decide, by decide, by decide, by decide, by decide, by decide,
      by decide, by decide⟩

/-- Witness for C4: the numeric-first branch at a value outside the unit
interval, returned without clamping. -/
theorem claim_C4_vote_mapper_witness :
    map_vote_text_to_value_full (some " 2,5 ") = some (mkRat 5 2) :=
  claim_C4_vote_mapper.1 " 2,5 " (mkRat 5 2) (by decide)

/-- The split of a raw cell has at most three segments. -/
theorem pySplit2_length_le (s : String) : (pySplit2 s).length ≤ 3 := by
  unfold pySplit2
  split <;> simp

/-- C5: for every non-absent cell, the cell interpreter splits the raw
string on the triple-asterisk delimiter into at most three segments (a
fourth delimiter stays inside the third), cleans each segment
independently, and passes segments two and three through verbatim as
comment and source; the spec's delimiter examples evaluate as listed on the
vocabulary-enabled variant. -/
theorem claim_C5_delimiter_split :
    (∀ cell raw, clean_text cell = some raw →
        (pySplit2 raw).length ≤ 3 ∧
        parse_cell_combined_full cell =
          ((map_vote_text_to_value_full (clean_text ((pySplit2 raw).get? 0))).map PyVal.num,
           clean_text ((pySplit2 raw).get? 1),
           clean_text ((pySplit2 raw).get? 2))) ∧
    parse_cell_combined_full (some "A favor***Buena propuesta***http://x")
      = (some (PyVal.num 1), some "Buena propuesta", some "http://x") ∧
    parse_cell_combined_full (some "0.7***Comentario")
      = (some (PyVal.num (7/10)), some "Comentario", none) ∧
    parse_cell_combined_full (some "1***c***s***extra")
      = (some (PyVal.num 1), some "c", some "s***extra") ∧
    parse_cell_combined_full (some "   ") = defaultTriple := by
  refine ⟨?_, by decide, ?_, by decide, by decide⟩
  · intro cell raw h
    refine ⟨pySplit2_length_le raw, ?_⟩
    unfold parse_cell_combined_full
    rw [h]
  · rw [← mkRat_seven_ten_eq]
    decide

/-- Witness for C5 at a concrete two-segment cell. -/
theorem claim_C5_delimiter_split_witness :
    (pySplit2 "x***y").length ≤ 3 ∧
    parse_cell_combined_full (some "x***y") =
      ((map_vote_text_to_value_full (clean_text ((pySplit2 "x***y").get? 0))).map PyVal.num,
       clean_text ((pySplit2 "x***y").get? 1),
       clean_text ((pySplit2 "x***y").get? 2)) :=
  claim_C5_delimiter_split.1 (some "x***y") "x***y" (by decide)

/-- A character list with no opening parenthesis yields no decomposition. -/
theorem findOpenParen_none {cs : List Char} (h : '(' ∉ cs) :
    findOpenParen cs = none := by
  induction cs with
  | nil => rfl
  | cons c rest ih =>
    unfold findOpenParen
    rw [if_neg (fun hc => h (by rw [hc]; exact List.mem_cons_self _ _)),
      ih (fun hm => h (List.mem_cons_of_mem _ hm))]

/-- C9: the candidate-header parser decomposes a trailing parenthesized
suffix into name and party, and returns the whole trimmed header with no
party when no parenthesis is present. -/
theorem claim_C9_candidate_header :
    parse_candidate_header (some "Juan Pérez (Partido X)")
      = (some "Juan Pérez", some "Partido X") ∧
    parse_candidate_header (some "Juan Pérez") = (some "Juan Pérez", none) ∧
    (∀ s : String, '(' ∉ (pyStrip s).data →
        parse_candidate_header (some s) = (some (pyStrip s), none)) := by
  refine ⟨by decide, by decide, ?_⟩
  intro s h
  simp only [parse_candidate_header]
  by_cases hl : (pyStrip s).data.getLast? = some ')'
  · rw [if_pos hl,
      findOpenParen_none (fun hm => h ((List.dropLast_sublist _).subset hm))]
  · rw [if_neg hl]

/-- Witness for C9 at a parenthesis-free header. -/
theorem claim_C9_candidate_header_witness :
    parse_candidate_header (some "Solo Nombre") = (some "Solo Nombre", none) := by
  have h := claim_C9_candidate_header.2.2 "Solo Nombre" (by decide)
  rw [show pyStrip "Solo Nombre" = "Solo Nombre" from by decide] at h
  exact h

/-- C3 fails as stated: the chile_presidencial variant neither performs
numeric-only parsing (which would map the non-numeric text to absent) nor
the full numeric-then-vocabulary mapping (which would also map this text to
absent) — it stores the cleaned position text itself in the vote slot. -/
theorem claim_C3_counterexample :
    (parse_cell_combined_text (some "tal vez")).1 = some (PyVal.str "tal vez") ∧
    map_vote_text_to_value_numeric (some "tal vez") = none ∧
    map_vote_text_to_value_full (some "tal vez") = none ∧
    some (PyVal.str "tal vez") ≠ (none : Option PyVal) := by
  refine ⟨by decide, by decide, by decide, by decide⟩

/-- C3 amended: the two numeric-only variants map every text that fails the
numeric parse to absent; the vocabulary variant additionally maps the
Spanish vocabulary; and the chile_presidencial variant applies no vote
mapping at all, passing the cleaned first segment through verbatim. -/
theorem claim_C3_amended_mapping_split :
    (∀ s : String, pyFloat? (pyCommaToDot (pyStrip s)) = none →
        map_vote_text_to_value_numeric (some s) = none) ∧
    map_vote_text_to_value_full (some "A favor") = some 1 ∧
    map_vote_text_to_value_numeric (some "A favor") = none ∧
    (∀ cell raw, clean_text cell = some raw →
        (parse_cell_combined_text cell).1
          = Option.map PyVal.str (clean_text ((pySplit2 raw).get? 0))) := by
  refine ⟨?_, by decide, by decide, ?_⟩
  · intro s h
    simp only [map_vote_text_to_value_numeric]
    by_cases he : pyStrip s = ""
    · rw [if_pos he]
    · rw [if_neg he, h]
  · intro cell raw h
    unfold parse_cell_combined_text
    rw [h]

/-- Witness for the amended C3 at concrete non-numeric inputs. -/
theorem claim_C3_amended_mapping_split_witness :
    map_vote_text_to_value_numeric (some "tal vez") = none ∧
    (parse_cell_combined_text (some "x***y")).1
      = Option.map PyVal.str (clean_text ((pySplit2 "x***y").get? 0)) :=
  ⟨claim_C3_amended_mapping_split.1 "tal vez" (by decide),
   claim_C3_amended_mapping_split.2.2.2 (some "x***y") "x***y" (by decide)⟩

/-- C2 fails as stated: in the Peru variants the post-mapping replacement
uses the local abbreviated placeholder comment, so the record produced for
a cell of bare delimiters differs from the record produced for a fully
empty cell (which carries the module-constant placeholder). -/
theorem claim_C2_counterexample :
    generate_peru_partidos
        [[some "Tema", some "Statement", some "P"],
         [some "T", some "S", some "***"]]
      = Except.ok ("parties",
          [(some "P",
            { name := some "P", party := none,
              votes := [("T: S",
                { tema := some "T", question := "S",
                  vote := some (PyVal.num MISSING_VOTE_DEFAULT),
                  comment := some missing_comment_default_peru,
                  source := none })] })])
  ∧ generate_peru_partidos
        [[some "Tema", some "Statement", some "P"],
         [some "T", some "S", none]]
      = Except.ok ("parties",
          [(some "P",
            { name := some "P", party := none,
              votes := [("T: S",
                { tema := some "T", question := "S",
                  vote := some (PyVal.num MISSING_VOTE_DEFAULT),
                  comment := some MISSING_COMMENT_DEFAULT,
                  source := none })] })])
  ∧ ({ tema := some "T", question := "S",
       vote := some (PyVal.num MISSING_VOTE_DEFAULT),
       comment := some missing_comment_default_peru,
       source := none } : VoteRecord)
      ≠ { tema := some "T", question := "S",
          vote := some (PyVal.num MISSING_VOTE_DEFAULT),
          comment := some MISSING_COMMENT_DEFAULT,
          source := none } := by
  refine ⟨by decide, by decide, by decide⟩

/-- C2 amended: when the parsed triple is all-absent, the pipeline replaces
it with the variant's replacement triple; in the Chile variants that triple
is the missing-cell default triple, so the record is identical to the one
for a fully empty cell, while in the Peru variants the replacement carries
the abbreviated local placeholder comment and so differs from the
empty-cell record in the comment field. -/
theorem claim_C2_amended_replacement (cell : Option String) :
    (parse_cell_combined_numeric cell = (none, none, none) →
        finalizeCell chile_partidos_2025 cell = parse_cell_combined_numeric none ∧
        finalizeCell peru_partidos_2026 cell
          = (some (PyVal.num MISSING_VOTE_DEFAULT), some missing_comment_default_peru, none)) ∧
    (parse_cell_combined_full cell = (none, none, none) →
        finalizeCell peru_pres_2026 cell
          = (some (PyVal.num MISSING_VOTE_DEFAULT), some missing_comment_default_peru, none)) ∧
    (parse_cell_combined_text cell = (none, none, none) →
        finalizeCell chile_presidencial_2025 cell = parse_cell_combined_text none) ∧
    missing_comment_default_peru ≠ MISSING_COMMENT_DEFAULT := by
  refine ⟨?_, ?_, ?_, by decide⟩
  · intro h
    constructor
    · show finalizeCell chile_partidos_2025 cell = defaultTriple
      simp [finalizeCell, chile_partidos_2025, h]
    · simp [finalizeCell, peru_partidos_2026, h]
  · intro h
    simp [finalizeCell, peru_pres_2026, h]
  · intro h
    show finalizeCell chile_presidencial_2025 cell = defaultTriple
    simp [finalizeCell, chile_presidencial_2025, h]

/-- Witness for the amended C2 at the bare-delimiter cell. -/
theorem claim_C2_amended_replacement_witness :
    finalizeCell peru_partidos_2026 (some "***")
      = (some (PyVal.num MISSING_VOTE_DEFAULT), some missing_comment_default_peru, none) ∧
    finalizeCell chile_partidos_2025 (some "***") = parse_cell_combined_numeric none :=
  ⟨((claim_C2_amended_replacement (some "***")).1 (by decide)).2,
   ((claim_C2_amended_replacement (some "***")).1 (by decide)).1⟩

/-- The fatal condition of a run: the truncated table has no rows, or a
mandatory metadata column is missing from the promoted header. -/
def fatalCond (cap : Nat) (table : List (List (Option String))) : Bool :=
  match table.take cap with
  | [] => true
  | headers :: _ =>
    !(decide (some "Statement" ∈ headers) && decide (some "Tema" ∈ headers))

/-- A run fails exactly on the fatal condition for its row cap. -/
theorem generate_error_iff (cfg : VariantConfig) (table : List (List (Option String))) :
    (∃ msg, generate cfg table = Except.error msg) ↔ fatalCond cfg.rowCap table = true := by
  unfold generate fatalCond
  cases h : table.take cfg.rowCap with
  | nil => simp
  | cons headers rest =>
    by_cases hc : some "Statement" ∈ headers ∧ some "Tema" ∈ headers
    · simp [hc.1, hc.2]
    · rw [not_and_or] at hc
      rcases hc with hc | hc <;> simp [hc]

/-- C6: each variant's run aborts with a fatal error (writing nothing) if
and only if the truncated input has zero rows or a mandatory metadata
column is missing from the promoted header, and completes with the single
output document otherwise.  The promoted header labels are assumed
pairwise distinct (duplicate-label lookup is a table-library behaviour
outside the embedding). -/
theorem claim_C6_fatal_errors (table : List (List (Option String)))
    (_hnd : (table.headD []).Nodup) :
    ((∃ msg, generate_chile_partidos table = Except.error msg)
        ↔ fatalCond 15 table = true) ∧
    ((∃ msg, generate_peru_partidos table = Except.error msg)
        ↔ fatalCond 9 table = true) ∧
    ((∃ msg, generate_peru_pres table = Except.error msg)
        ↔ fatalCond 9 table = true) ∧
    ((∃ msg, generate_chile_presidencial table = Except.error msg)
        ↔ fatalCond 21 table = true) :=
  ⟨generate_error_iff chile_partidos_2025 table,
   generate_error_iff peru_partidos_2026 table,
   generate_error_iff peru_pres_2026 table,
   generate_error_iff chile_presidencial_2025 table⟩

/-- Witness for C6: a header lacking the Statement column is fatal, and a
well-formed header is not. -/
theorem claim_C6_fatal_errors_witness :
    (∃ msg, generate_chile_partidos [[some "Tema", some "X"]] = Except.error msg) ∧
    ¬ (∃ msg, generate_chile_partidos
        [[some "Tema", some "Statement", some "P"]] = Except.error msg) :=
  ⟨(claim_C6_fatal_errors [[some "Tema", some "X"]] (by decide)).1.mpr (by decide),
   fun h =>
    absurd ((claim_C6_fatal_errors [[some "Tema", some "Statement", some "P"]]
      (by decide)).1.mp h) (by decide)⟩

/-- Truncation to the row cap is the first step of a run, so the run only
depends on the first `rowCap` rows. -/
theorem generate_take (cfg : VariantConfig) (table : List (List (Option String))) :
    generate cfg table = generate cfg (table.take cfg.rowCap) := by
  unfold generate
  rw [List.take_take, min_self]

/-- C8: rows beyond the variant's fixed cap (applied before header
promotion) contribute nothing to the output — each run coincides with the
run on the table truncated to its cap, and the surplus rows never cause an
error. -/
theorem claim_C8_row_cap (table : List (List (Option String))) :
    generate_chile_partidos table = generate_chile_partidos (table.take 15) ∧
    generate_peru_partidos table = generate_peru_partidos (table.take 9) ∧
    generate_peru_pres table = generate_peru_pres (table.take 9) ∧
    generate_chile_presidencial table = generate_chile_presidencial (table.take 21) :=
  ⟨generate_take chile_partidos_2025 table,
   generate_take peru_partidos_2026 table,
   generate_take peru_pres_2026 table,
   generate_take chile_presidencial_2025 table⟩

theorem dictInsert_fresh {α β : Type} [DecidableEq α] (k : α) (v : β)
    (d : List (α × β)) (h : ∀ p ∈ d, p.1 ≠ k) :
    dictInsert k v d = d ++ [(k, v)] := by
  induction d with
  | nil => rfl
  | cons p rest ih =>
    unfold dictInsert
    rw [if_neg (h p (List.mem_cons_self _ _)),
      ih (fun q hq => h q (List.mem_cons_of_mem _ hq))]
    rfl

theorem foldl_map_comm {α β : Type} (φ : α → β → β) (labels : List α) (es : List β) :
    labels.foldl (fun es l => es.map (φ l)) es
      = es.map (fun p => labels.foldl (fun p l => φ l p) p) := by
  induction labels generalizing es with
  | nil => simp
  | cons a rest ih =>
    simp only [List.foldl_cons]
    rw [ih, List.map_map]
    rfl

theorem foldl_keyupd_not_mem {α β : Type} [DecidableEq α] (u : α → β → β)
    (labels : List α) (k : α) (v : β) (hk : k ∉ labels) :
    labels.foldl (fun p l => if p.1 = l then (l, u l p.2) else p) (k, v) = (k, v) := by
  induction labels with
  | nil => rfl
  | cons a rest ih =>
    simp only [List.foldl_cons]
    rw [if_neg (fun he : k = a => hk (by rw [he]; exact List.mem_cons_self _ _))]
    exact ih (fun hm => hk (List.mem_cons_of_mem _ hm))

theorem foldl_keyupd_mem {α β : Type} [DecidableEq α] (u : α → β → β)
    (labels : List α) (k : α) (v : β) (hnd : labels.Nodup) (hk : k ∈ labels) :
    labels.foldl (fun p l => if p.1 = l then (l, u l p.2) else p) (k, v) = (k, u k v) := by
  induction labels with
  | nil => cases hk
  | cons a rest ih =>
    simp only [List.foldl_cons]
    by_cases he : k = a
    · subst he
      rw [if_pos rfl]
      exact foldl_keyupd_not_mem u rest k (u k v) (List.nodup_cons.mp hnd).1
    · rw [if_neg he]
      exact ih (List.nodup_cons.mp hnd).2 ((List.mem_cons.mp hk).resolve_left he)

theorem rowStep_none (cfg : VariantConfig) (headers labels : List (Option String))
    (es : List (Option String × EntityOut)) (row : List (Option String))
    (hk : rowKey headers row = none) :
    rowStep cfg headers labels es row = es := by
  unfold rowStep
  rw [hk]

theorem rowStep_some (cfg : VariantConfig) (headers labels : List (Option String))
    (es : List (Option String × EntityOut)) (row : List (Option String))
    (tp : Option String) (st : String) (hk : rowKey headers row = some (tp, st)) :
    rowStep cfg headers labels es row
      = labels.foldl
          (fun es' l => updateVotes l (qidOf tp st) (mkRecord cfg headers row l tp st) es') es := by
  unfold rowStep
  rw [hk]

theorem voteStep_none (cfg : VariantConfig) (headers : List (Option String))
    (l : Option String) (v : List (String × VoteRecord)) (row : List (Option String))
    (hk : rowKey headers row = none) :
    voteStep cfg headers l v row = v := by
  unfold voteStep
  rw [hk]

theorem voteStep_some (cfg : VariantConfig) (headers : List (Option String))
    (l : Option String) (v : List (String × VoteRecord)) (row : List (Option String))
    (tp : Option String) (st : String) (hk : rowKey headers row = some (tp, st)) :
    voteStep cfg headers l v row
      = dictInsert (qidOf tp st) (mkRecord cfg headers row l tp st) v := by
  unfold voteStep
  rw [hk]

theorem rowStep_map_form (cfg : VariantConfig) (headers labels : List (Option String))
    (hnd : labels.Nodup) (F : Option String → EntityOut) (row : List (Option String)) :
    rowStep cfg headers labels (labels.map (fun l => (l, F l))) row
      = labels.map (fun l => (l,
          { name := (F l).name, party := (F l).party,
            votes := voteStep cfg headers l (F l).votes row })) := by
  cases hk : rowKey headers row with
  | none =>
    rw [rowStep_none cfg headers labels _ row hk]
    have hv : ∀ l, voteStep cfg headers l (F l).votes row = (F l).votes :=
      fun l => voteStep_none cfg headers l (F l).votes row hk
    simp only [hv]
  | some pr =>
    obtain ⟨tp, st⟩ := pr
    rw [rowStep_some cfg headers labels _ row tp st hk]
    unfold updateVotes
    refine Eq.trans (foldl_map_comm
      (fun l p =>
        if p.1 = l then
          (l,
            { p.2 with
                votes := dictInsert (qidOf tp st) (mkRecord cfg headers row l tp st) p.2.votes })
        else p)
      labels (labels.map (fun l => (l, F l)))) ?_
    rw [List.map_map]
    apply List.map_congr_left
    intro l hl
    rw [voteStep_some cfg headers l ((F l).votes) row tp st hk]
    exact foldl_keyupd_mem
      (fun l e =>
        { e with
            votes := dictInsert (qidOf tp st) (mkRecord cfg headers row l tp st) e.votes })
      labels l (F l) hnd hl

theorem rows_fold_form (cfg : VariantConfig) (headers labels : List (Option String))
    (hnd : labels.Nodup) (rows : List (List (Option String))) :
    ∀ V : Option String → EntityOut,
      rows.foldl (rowStep cfg headers labels) (labels.map (fun l => (l, V l)))
        = labels.map (fun l => (l,
            { name := (V l).name, party := (V l).party,
              votes := rows.foldl (voteStep cfg headers l) (V l).votes })) := by
  induction rows with
  | nil =>
    intro V
    rfl
  | cons r rest ih =>
    intro V
    simp only [List.foldl_cons]
    rw [rowStep_map_form cfg headers labels hnd V r,
      ih (fun l =>
        { name := (V l).name, party := (V l).party,
          votes := voteStep cfg headers l (V l).votes r })]

theorem entities_init_form (cfg : VariantConfig) (labels : List (Option String)) :
    ∀ acc : List (Option String × EntityOut),
      labels.Nodup → (∀ l ∈ labels, ∀ p ∈ acc, p.1 ≠ l) →
      labels.foldl (fun es l => dictInsert l (mkEntity cfg l) es) acc
        = acc ++ labels.map (fun l => (l, mkEntity cfg l)) := by
  induction labels with
  | nil => intro acc _ _; simp
  | cons a rest ih =>
    intro acc hnd hfresh
    simp only [List.foldl_cons]
    rw [dictInsert_fresh a (mkEntity cfg a) acc
      (fun p hp => hfresh a (List.mem_cons_self _ _) p hp)]
    rw [ih (acc ++ [(a, mkEntity cfg a)]) (List.nodup_cons.mp hnd).2 ?_]
    · simp
    · intro l hl p hp
      rcases List.mem_append.mp hp with hp | hp
      · exact hfresh l (List.mem_cons_of_mem _ hl) p hp
      · rw [List.mem_singleton.mp hp]
        intro he
        exact (List.nodup_cons.mp hnd).1 (by rw [← he] at hl; exact hl)

theorem generate_eq_core (cfg : VariantConfig) (table : List (List (Option String)))
    (headers : List (Option String)) (dataRows : List (List (Option String)))
    (htr : table.take cfg.rowCap = headers :: dataRows)
    (hcols : some "Statement" ∈ headers ∧ some "Tema" ∈ headers) :
    generate cfg table = Except.ok (cfg.category,
      dataRows.foldl (rowStep cfg headers (entityLabelsOf headers))
        ((entityLabelsOf headers).foldl
          (fun es l => dictInsert l (mkEntity cfg l) es) [])) := by
  unfold generate
  rw [htr]
  exact if_pos hcols

/-- Characterization of a successful run with pairwise-distinct promoted
header labels: one output entry per entity column, each carrying the
per-entity fold of the data rows over its own votes dict. -/
theorem generate_ok_form (cfg : VariantConfig) (table : List (List (Option String)))
    (headers : List (Option String)) (dataRows : List (List (Option String)))
    (htr : table.take cfg.rowCap = headers :: dataRows)
    (hnd : headers.Nodup)
    (hcols : some "Statement" ∈ headers ∧ some "Tema" ∈ headers) :
    generate cfg table = Except.ok (cfg.category,
      (entityLabelsOf headers).map (fun l => (l,
        { name := (cfg.headerToEntity l).1, party := (cfg.headerToEntity l).2,
          votes := dataRows.foldl (voteStep cfg headers l) [] }))) := by
  have hndl : (entityLabelsOf headers).Nodup := hnd.filter _
  rw [generate_eq_core cfg table headers dataRows htr hcols]
  rw [entities_init_form cfg (entityLabelsOf headers) [] hndl
    (fun l _ p hp => absurd hp (List.not_mem_nil p))]
  rw [List.nil_append]
  exact congrArg (fun x => Except.ok (cfg.category, x))
    (rows_fold_form cfg headers (entityLabelsOf headers) hndl dataRows
      (fun l => mkEntity cfg l))

theorem dictGet?_insert_self {α β : Type} [DecidableEq α] (k : α) (v : β)
    (d : List (α × β)) : dictGet? (dictInsert k v d) k = some v := by
  induction d with
  | nil => simp [dictInsert, dictGet?, List.find?]
  | cons p rest ih =>
    unfold dictInsert
    by_cases hp : p.1 = k
    · rw [if_pos hp]
      simp [dictGet?, List.find?]
    · rw [if_neg hp]
      unfold dictGet? at ih ⊢
      rw [List.find?_cons_of_neg _ (by simpa using hp)]
      exact ih

theorem dictGet?_insert_ne {α β : Type} [DecidableEq α] (k k' : α) (v : β)
    (d : List (α × β)) (hne : k' ≠ k) :
    dictGet? (dictInsert k v d) k' = dictGet? d k' := by
  induction d with
  | nil => simp [dictInsert, dictGet?, List.find?, Ne.symm hne]
  | cons p rest ih =>
    unfold dictInsert
    by_cases hp : p.1 = k
    · rw [if_pos hp]
      unfold dictGet?
      rw [List.find?_cons_of_neg _ (by simpa using Ne.symm hne),
        List.find?_cons_of_neg _ (by simp [hp]; exact fun h => hne (h ▸ hp ▸ rfl))]
    · rw [if_neg hp]
      unfold dictGet? at ih ⊢
      by_cases hp' : p.1 = k'
      · rw [List.find?_cons_of_pos _ (by simpa using hp'),
          List.find?_cons_of_pos _ (by simpa using hp')]
      · rw [List.find?_cons_of_neg _ (by simpa using hp'),
          List.find?_cons_of_neg _ (by simpa using hp')]
        exact ih

/-- Whether a data row survives and produces exactly the question
identifier `q`. -/
def rowMatchesQ (headers : List (Option String)) (q : String)
    (row : List (Option String)) : Bool :=
  match rowKey headers row with
  | none => false
  | some (tp, st) => qidOf tp st = q

/-- The record a surviving row stores for entity column `l`. -/
def recordAt (cfg : VariantConfig) (headers row : List (Option String))
    (l : Option String) : Option VoteRecord :=
  match rowKey headers row with
  | none => none
  | some (tp, st) => some (mkRecord cfg headers row l tp st)

theorem find?_reverse_last {α : Type} (p : α → Bool) (rows : List α) (j : Nat) (rj : α)
    (hj : rows[j]? = some rj) (hpj : p rj = true)
    (hlast : ∀ k rk, j < k → rows[k]? = some rk → p rk = false) :
    rows.reverse.find? p = some rj := by
  have hsplit : rows = rows.take (j+1) ++ rows.drop (j+1) := (List.take_append_drop _ _).symm
  conv_lhs => rw [hsplit]
  rw [List.reverse_append, List.find?_append]
  have hd : ((rows.drop (j+1)).reverse).find? p = none := by
    rw [List.find?_eq_none]
    intro x hx
    rw [List.mem_reverse] at hx
    obtain ⟨i, hi⟩ := List.mem_iff_getElem?.mp hx
    rw [List.getElem?_drop rows (j+1) i] at hi
    rw [hlast (j+1+i) x (by omega) hi]
    simp
  rw [hd]
  have htake : rows.take (j+1) = rows.take j ++ [rj] := by
    rw [List.take_succ, hj]
    rfl
  rw [htake, List.reverse_append]
  simp [List.find?, hpj]

theorem votes_foldl_lookup_none (cfg : VariantConfig) (headers : List (Option String))
    (l : Option String) (q : String) (rows : List (List (Option String))) :
    ∀ v0, rows.reverse.find? (rowMatchesQ headers q) = none →
      dictGet? (rows.foldl (voteStep cfg headers l) v0) q = dictGet? v0 q := by
  induction rows with
  | nil => intro v0 _; rfl
  | cons r rest ih =>
    intro v0 h
    rw [List.reverse_cons, List.find?_append] at h
    have h2 := Option.or_eq_none.mp h
    simp only [List.foldl_cons]
    rw [ih (voteStep cfg headers l v0 r) h2.1]
    have hr : rowMatchesQ headers q r = false := by
      have := h2.2
      by_cases hm : rowMatchesQ headers q r = true
      · rw [List.find?_cons_of_pos _ hm] at this
        cases this
      · simpa using hm
    unfold rowMatchesQ at hr
    cases hk : rowKey headers r with
    | none => rw [voteStep_none cfg headers l v0 r hk]
    | some pr =>
      obtain ⟨tp, st⟩ := pr
      rw [hk] at hr
      have hq : qidOf tp st ≠ q := by simpa using hr
      rw [voteStep_some cfg headers l v0 r tp st hk,
        dictGet?_insert_ne (qidOf tp st) q _ v0 (Ne.symm hq)]

theorem votes_foldl_lookup_found (cfg : VariantConfig) (headers : List (Option String))
    (l : Option String) (q : String) (rows : List (List (Option String))) :
    ∀ v0 row, rows.reverse.find? (rowMatchesQ headers q) = some row →
      dictGet? (rows.foldl (voteStep cfg headers l) v0) q = recordAt cfg headers row l := by
  induction rows with
  | nil => intro v0 row h; cases h
  | cons r rest ih =>
    intro v0 row h
    rw [List.reverse_cons, List.find?_append] at h
    simp only [List.foldl_cons]
    cases hf : rest.reverse.find? (rowMatchesQ headers q) with
    | some row' =>
      rw [hf] at h
      have : row' = row := by simpa [Option.or] using h
      subst this
      exact ih (voteStep cfg headers l v0 r) row' hf
    | none =>
      rw [hf] at h
      have h1 : List.find? (rowMatchesQ headers q) [r] = some row := by
        simpa [Option.or] using h
      have hm : rowMatchesQ headers q r = true := by
        by_cases hm : rowMatchesQ headers q r = true
        · exact hm
        · rw [List.find?_cons_of_neg _ hm] at h1
          cases h1
      have hrow : row = r := by
        rw [List.find?_cons_of_pos _ hm] at h1
        exact (Option.some.injEq _ _ ▸ h1).symm
      subst hrow
      rw [votes_foldl_lookup_none cfg headers l q rest (voteStep cfg headers l v0 row) hf]
      unfold rowMatchesQ at hm
      cases hk : rowKey headers row with
      | none => rw [hk] at hm; cases hm
      | some pr =>
        obtain ⟨tp, st⟩ := pr
        rw [hk] at hm
        have hq : qidOf tp st = q := by simpa using hm
        rw [voteStep_some cfg headers l v0 row tp st hk, hq, dictGet?_insert_self]
        unfold recordAt
        rw [hk]

theorem dictInsert_keys {α β : Type} [DecidableEq α] (k : α) (v : β) (d : List (α × β)) :
    (dictInsert k v d).map Prod.fst
      = if k ∈ d.map Prod.fst then d.map Prod.fst else d.map Prod.fst ++ [k] := by
  induction d with
  | nil => simp [dictInsert]
  | cons p rest ih =>
    unfold dictInsert
    by_cases hp : p.1 = k
    · rw [if_pos hp]
      simp [hp]
    · rw [if_neg hp]
      simp only [List.map_cons, ih]
      by_cases hk : k ∈ rest.map Prod.fst
      · rw [if_pos hk,
          if_pos (show k ∈ p.1 :: rest.map Prod.fst from List.mem_cons_of_mem _ hk)]
      · rw [if_neg hk, if_neg (show k ∉ p.1 :: rest.map Prod.fst from by
          intro hm
          rcases List.mem_cons.mp hm with h | h
          · exact hp h.symm
          · exact hk h)]
        rfl

theorem dictInsert_keys_eq {α β : Type} [DecidableEq α] (k : α) (v v' : β)
    (d d' : List (α × β)) (h : d.map Prod.fst = d'.map Prod.fst) :
    (dictInsert k v d).map Prod.fst = (dictInsert k v' d').map Prod.fst := by
  rw [dictInsert_keys, dictInsert_keys, h]

theorem dictInsert_keys_nodup {α β : Type} [DecidableEq α] (k : α) (v : β)
    (d : List (α × β)) (h : (d.map Prod.fst).Nodup) :
    ((dictInsert k v d).map Prod.fst).Nodup := by
  rw [dictInsert_keys]
  by_cases hk : k ∈ d.map Prod.fst
  · rw [if_pos hk]; exact h
  · rw [if_neg hk]
    rw [List.nodup_append]
    exact ⟨h, List.nodup_singleton k,
      fun a ha hak => hk ((List.mem_singleton.mp hak) ▸ ha)⟩

theorem votes_foldl_keys_eq (cfg : VariantConfig) (headers : List (Option String))
    (rows : List (List (Option String))) (l l' : Option String) :
    ∀ v v' : List (String × VoteRecord), v.map Prod.fst = v'.map Prod.fst →
      (rows.foldl (voteStep cfg headers l) v).map Prod.fst
        = (rows.foldl (voteStep cfg headers l') v').map Prod.fst := by
  induction rows with
  | nil => intro v v' h; exact h
  | cons r rest ih =>
    intro v v' h
    simp only [List.foldl_cons]
    apply ih
    cases hk : rowKey headers r with
    | none =>
      rw [voteStep_none cfg headers l v r hk, voteStep_none cfg headers l' v' r hk]
      exact h
    | some pr =>
      obtain ⟨tp, st⟩ := pr
      rw [voteStep_some cfg headers l v r tp st hk,
        voteStep_some cfg headers l' v' r tp st hk]
      exact dictInsert_keys_eq _ _ _ _ _ h

theorem votes_foldl_keys_nodup (cfg : VariantConfig) (headers : List (Option String))
    (l : Option String) (rows : List (List (Option String))) :
    ∀ v : List (String × VoteRecord), (v.map Prod.fst).Nodup →
      ((rows.foldl (voteStep cfg headers l) v).map Prod.fst).Nodup := by
  induction rows with
  | nil => intro v h; exact h
  | cons r rest ih =>
    intro v h
    simp only [List.foldl_cons]
    apply ih
    cases hk : rowKey headers r with
    | none => rw [voteStep_none cfg headers l v r hk]; exact h
    | some pr =>
      obtain ⟨tp, st⟩ := pr
      rw [voteStep_some cfg headers l v r tp st hk]
      exact dictInsert_keys_nodup _ _ _ h

theorem dictInsert_keys_mem {α β : Type} [DecidableEq α] (k : α) (v : β)
    (d : List (α × β)) : k ∈ (dictInsert k v d).map Prod.fst := by
  rw [dictInsert_keys]
  by_cases hk : k ∈ d.map Prod.fst
  · rw [if_pos hk]; exact hk
  · rw [if_neg hk]; simp

theorem dictInsert_keys_mono {α β : Type} [DecidableEq α] (k k' : α) (v : β)
    (d : List (α × β)) (h : k' ∈ d.map Prod.fst) :
    k' ∈ (dictInsert k v d).map Prod.fst := by
  rw [dictInsert_keys]
  by_cases hk : k ∈ d.map Prod.fst
  · rw [if_pos hk]; exact h
  · rw [if_neg hk]; exact List.mem_append_left _ h

theorem votes_foldl_keys_mono (cfg : VariantConfig) (headers : List (Option String))
    (l : Option String) (q : String) (rows : List (List (Option String))) :
    ∀ v, q ∈ v.map Prod.fst →
      q ∈ (rows.foldl (voteStep cfg headers l) v).map Prod.fst := by
  induction rows with
  | nil => intro v h; exact h
  | cons r rest ih =>
    intro v h
    simp only [List.foldl_cons]
    apply ih
    cases hk : rowKey headers r with
    | none => rw [voteStep_none cfg headers l v r hk]; exact h
    | some pr =>
      obtain ⟨tp, st⟩ := pr
      rw [voteStep_some cfg headers l v r tp st hk]
      exact dictInsert_keys_mono _ _ _ _ h

theorem votes_foldl_keys_mem (cfg : VariantConfig) (headers : List (Option String))
    (l : Option String) (q : String) (rows : List (List (Option String))) :
    ∀ v, (∃ row ∈ rows, rowMatchesQ headers q row = true) →
      q ∈ (rows.foldl (voteStep cfg headers l) v).map Prod.fst := by
  induction rows with
  | nil => intro v h; obtain ⟨row, hm, _⟩ := h; cases hm
  | cons r rest ih =>
    intro v h
    obtain ⟨row, hm, hq⟩ := h
    simp only [List.foldl_cons]
    rcases List.mem_cons.mp hm with rfl | hm
    · apply votes_foldl_keys_mono
      unfold rowMatchesQ at hq
      cases hk : rowKey headers row with
      | none => rw [hk] at hq; cases hq
      | some pr =>
        obtain ⟨tp, st⟩ := pr
        rw [hk] at hq
        have : qidOf tp st = q := by simpa using hq
        rw [voteStep_some cfg headers l v row tp st hk, this]
        exact dictInsert_keys_mem _ _ _
    · exact ih _ ⟨row, hm, hq⟩

theorem count_one_of_get_nodup {α β : Type} [DecidableEq α] (d : List (α × β)) (q : α)
    (hnd : (d.map Prod.fst).Nodup) (r : β) (h : dictGet? d q = some r) :
    (d.filter (fun p => p.1 = q)).length = 1 := by
  induction d with
  | nil => cases h
  | cons p rest ih =>
    by_cases hp : p.1 = q
    · rw [List.filter_cons_of_pos (by simpa using hp)]
      have hq : q ∉ rest.map Prod.fst := by
        rw [← hp]
        exact (List.nodup_cons.mp (by simpa using hnd)).1
      have : rest.filter (fun p => p.1 = q) = [] := by
        rw [List.filter_eq_nil_iff]
        intro x hx hq'
        exact hq (List.mem_map.mpr ⟨x, hx, by simpa using hq'⟩)
      rw [this]
      rfl
    · rw [List.filter_cons_of_neg (by simpa using hp)]
      apply ih (List.nodup_cons.mp (by simpa using hnd)).2
      unfold dictGet? at h ⊢
      rw [List.find?_cons_of_neg _ (by simpa using hp)] at h
      exact h

/-- C7: when two data rows carry the identical cleaned Topic and Statement
(and no later row reproduces that identifier), every entity's votes dict
holds exactly one entry under the shared identifier, and it is the record
built from the later row — last write wins in row order. -/
theorem claim_C7_last_write_wins (cfg : VariantConfig)
    (table : List (List (Option String)))
    (headers : List (Option String)) (dataRows : List (List (Option String)))
    (htr : table.take cfg.rowCap = headers :: dataRows)
    (hnd : headers.Nodup)
    (hcols : some "Statement" ∈ headers ∧ some "Tema" ∈ headers)
    (i j : Nat) (ri rj : List (Option String))
    (_hij : i < j) (_hi : dataRows[i]? = some ri) (hj : dataRows[j]? = some rj)
    (tp : Option String) (st : String)
    (_hki : rowKey headers ri = some (tp, st))
    (hkj : rowKey headers rj = some (tp, st))
    (hlast : ∀ k rk, j < k → dataRows[k]? = some rk →
        rowMatchesQ headers (qidOf tp st) rk = false) :
    ∃ ents, generate cfg table = Except.ok (cfg.category, ents) ∧
      ∀ l eo, (l, eo) ∈ ents →
        dictGet? eo.votes (qidOf tp st) = some (mkRecord cfg headers rj l tp st) ∧
        (eo.votes.filter (fun p => p.1 = qidOf tp st)).length = 1 := by
  refine ⟨_, generate_ok_form cfg table headers dataRows htr hnd hcols, ?_⟩
  intro l eo hmem
  obtain ⟨l', _, heq⟩ := List.mem_map.mp hmem
  injection heq with ha hb
  subst ha
  subst hb
  have hfind : dataRows.reverse.find? (rowMatchesQ headers (qidOf tp st)) = some rj := by
    apply find?_reverse_last _ dataRows j rj hj ?_ hlast
    unfold rowMatchesQ
    rw [hkj]
    simp
  have hlook : dictGet? (dataRows.foldl (voteStep cfg headers l') []) (qidOf tp st)
      = some (mkRecord cfg headers rj l' tp st) := by
    rw [votes_foldl_lookup_found cfg headers l' (qidOf tp st) dataRows [] rj hfind]
    unfold recordAt
    rw [hkj]
  exact ⟨hlook,
    count_one_of_get_nodup (dataRows.foldl (voteStep cfg headers l') []) (qidOf tp st)
      (votes_foldl_keys_nodup cfg headers l' dataRows [] (by simp))
      (mkRecord cfg headers rj l' tp st) hlook⟩

/-- Witness for C7: a three-row table whose two data rows share topic and
statement; the stored record is the second row's. -/
theorem claim_C7_last_write_wins_witness :
    ∃ ents, generate chile_partidos_2025
        [[some "Tema", some "Statement", some "P"],
         [some "T", some "S", some "1"],
         [some "T", some "S", some "0"]]
      = Except.ok (chile_partidos_2025.category, ents) ∧
      ∀ l eo, (l, eo) ∈ ents →
        dictGet? eo.votes (qidOf (some "T") "S")
          = some (mkRecord chile_partidos_2025
              [some "Tema", some "Statement", some "P"]
              [some "T", some "S", some "0"] l (some "T") "S") ∧
        (eo.votes.filter (fun p => p.1 = qidOf (some "T") "S")).length = 1 :=
  claim_C7_last_write_wins chile_partidos_2025
    [[some "Tema", some "Statement", some "P"],
     [some "T", some "S", some "1"],
     [some "T", some "S", some "0"]]
    [some "Tema", some "Statement", some "P"]
    [[some "T", some "S", some "1"], [some "T", some "S", some "0"]]
    rfl (by decide) ⟨by decide, by decide⟩
    0 1 [some "T", some "S", some "1"] [some "T", some "S", some "0"]
    (by decide) rfl rfl (some "T") "S" (by decide) (by decide)
    (by
      intro k rk hk hget
      rw [List.getElem?_eq_none
        (by simp only [List.length_cons, List.length_nil]; omega)] at hget
      cases hget)

/-- C10: in every successfully produced output document (with
pairwise-distinct promoted header labels), all entities carry exactly the
same question-identifier keys in the same order, and every surviving data
row's identifier is present in every entity's votes dict. -/
theorem claim_C10_uniform_question_keys (cfg : VariantConfig)
    (table : List (List (Option String)))
    (headers : List (Option String)) (dataRows : List (List (Option String)))
    (htr : table.take cfg.rowCap = headers :: dataRows)
    (hnd : headers.Nodup)
    (hcols : some "Statement" ∈ headers ∧ some "Tema" ∈ headers) :
    ∃ ents, generate cfg table = Except.ok (cfg.category, ents) ∧
      (∀ l1 e1 l2 e2, (l1, e1) ∈ ents → (l2, e2) ∈ ents →
        e1.votes.map Prod.fst = e2.votes.map Prod.fst) ∧
      (∀ row ∈ dataRows, ∀ tp st, rowKey headers row = some (tp, st) →
        ∀ l eo, (l, eo) ∈ ents → qidOf tp st ∈ eo.votes.map Prod.fst) := by
  refine ⟨_, generate_ok_form cfg table headers dataRows htr hnd hcols, ?_, ?_⟩
  · intro l1 e1 l2 e2 h1 h2
    obtain ⟨l1', _, heq1⟩ := List.mem_map.mp h1
    obtain ⟨l2', _, heq2⟩ := List.mem_map.mp h2
    injection heq1 with ha1 hb1
    injection heq2 with ha2 hb2
    subst ha1
    subst hb1
    subst ha2
    subst hb2
    exact votes_foldl_keys_eq cfg headers dataRows l1' l2' [] [] rfl
  · intro row hrow tp st hk l eo hmem
    obtain ⟨l', _, heq⟩ := List.mem_map.mp hmem
    injection heq with ha hb
    subst ha
    subst hb
    apply votes_foldl_keys_mem
    exact ⟨row, hrow, by unfold rowMatchesQ; rw [hk]; simp⟩

/-- Witness for C10: a two-candidate table with one surviving data row. -/
theorem claim_C10_uniform_question_keys_witness :
    ∃ ents, generate peru_pres_2026
        [[some "Tema", some "Statement", some "A (X)", some "B"],
         [some "T", some "S", some "1", none]]
      = Except.ok (peru_pres_2026.category, ents) ∧
      (∀ l1 e1 l2 e2, (l1, e1) ∈ ents → (l2, e2) ∈ ents →
        e1.votes.map Prod.fst = e2.votes.map Prod.fst) ∧
      (∀ row ∈ [[some "T", some "S", some "1", none]], ∀ tp st,
        rowKey [some "Tema", some "Statement", some "A (X)", some "B"] row
          = some (tp, st) →
        ∀ l eo, (l, eo) ∈ ents → qidOf tp st ∈ eo.votes.map Prod.fst) :=
  claim_C10_uniform_question_keys peru_pres_2026
    [[some "Tema", some "Statement", some "A (X)", some "B"],
     [some "T", some "S", some "1", none]]
    [some "Tema", some "Statement", some "A (X)", some "B"]
    [[some "T", some "S", some "1", none]]
    rfl (by decide) ⟨by decide, by decide⟩
